import Mathlib

/-!
Verification of the enumerated field pointer registry of
`cs_field_pointer.cpp` (code_saturne).

The registry keeps, per enumerator, a slot `struct cs_field_pointer_array_t`
with an inline field pointer `f` and an array pointer `p`; `p` either aims
at the slot's own `f` member (inline representation) or at a separately
allocated array of field pointers (expanded representation).  A parallel
array `_sublist_size` of C `short int` records each slot's current width;
the store `_sublist_size[e] = n_sub` with `int n_sub = index + 1` wraps at
32768 (e.g. 32768 becomes -32768), and a subsequent growth's nulling loop
`for (int i = _sublist_size[e]; i < n_sub; i++)` then starts at a negative
index, writing out of bounds.  This file embeds those data and the
operations `_init_pointers`, `cs_field_pointer_ensure_init`,
`cs_field_pointer_destroy_all`, `cs_field_pointer_map` and
`cs_field_pointer_map_indexed` as executable Lean definitions — widths as
`Int` values stored through a 16-bit wrap — and proves or refutes the
stated properties about them, including the consequences of the width
wrap.
-/

namespace CSFP

/-- Opaque field handle (a `cs_field_t *`): `none` models the null pointer,
`some k` a non-null pointer, two handles being equal exactly when the
pointers are. -/
abbrev Handle := Option Nat

/-- Conversion of an `int` value to C `short int` (16-bit, two's
complement), as performed by the store `_sublist_size[e] = n_sub`:
reduction into the range -32768 .. 32767 by wrap-around. -/
def wrap16 (z : Int) : Int :=
  (z + 32768) % 65536 - 32768

/-- Backing representation of a slot's `p` member. `Rep.inline` models
`p == &(slot.f)` (the pointer aims at the slot's own inline field);
`Rep.heap a` models `p` pointing at a separately allocated array `a` of
handles, the list length being the allocated element count. -/
inductive Rep where
  | inline : Rep
  | heap : List Handle → Rep
deriving DecidableEq, Repr

/-- One registry slot, `struct cs_field_pointer_array_t`: the inline field
pointer `f` and the array pointer `p`. -/
structure Slot where
  f : Handle
  p : Rep
deriving DecidableEq, Repr

/-- Default slot used to totalize list reads; never observable behind the
`assert(e < _n_pointers)` guard. -/
def dSlot : Slot := { f := none, p := Rep.inline }

/-- The registry: `field_pointer` models the `_field_pointer` array and
`sublist_size` the `_sublist_size` array of C `short int` (values in
-32768 .. 32767, maintained by storing through `wrap16`). Both arrays are
allocated with exactly `_n_pointers` entries, so the model identifies
`_n_pointers` with `field_pointer.length`. -/
structure Registry where
  field_pointer : List Slot
  sublist_size : List Int
deriving DecidableEq, Repr

/-- Global singleton state: `none` models `_field_pointer == nullptr`
(registry not initialized). -/
abbrev PtrState := Option Registry

/-- Model of `_init_pointers`: allocate both arrays with `n` entries
(`n` models the compile-time constant `CS_FIELD_N_POINTERS`), and set
every slot to a null `f` with `p = &f`, and every width to 0. -/
def init_pointers (n : Nat) : Registry :=
  { field_pointer := List.replicate n { f := none, p := Rep.inline },
    sublist_size := List.replicate n 0 }

/-- Model of `cs_field_pointer_ensure_init`: initialize exactly when the
singleton is still null. -/
def cs_field_pointer_ensure_init (n : Nat) : PtrState → PtrState
  | none => some (init_pointers n)
  | some r => some r

/-- Model of `cs_field_pointer_destroy_all`: frees every expanded sub-list
array (those with `_sublist_size > 1`) and then both backing arrays —
deallocation has no observable effect in the model — and resets the
singleton to null. -/
def cs_field_pointer_destroy_all : PtrState → PtrState :=
  fun _ => none

/-- Write `h` through a slot's `p` pointer at offset `i`
(the statement `_field_pointer[e].p[index] = f` of the source). When `p`
is inline, offset 0 targets the inline member `f` itself; any other inline
offset, like an out-of-range heap offset, would be an out-of-bounds write
in C and is modeled as a no-op on the slot (the bounds-checked replay
`map_indexed_body_checked` flags it instead). -/
def writeP (s : Slot) (i : Nat) (h : Handle) : Slot :=
  match s.p with
  | Rep.inline => if i = 0 then { s with f := h } else s
  | Rep.heap a => { s with p := Rep.heap (a.set i h) }

/-- Backing storage of `n_sub` handles obtained in the growth path:
`CS_MALLOC` (fresh storage) when `p` still aims at the inline member,
`CS_REALLOC` (prefix preserved) when already expanded. Uninitialized
memory is modeled as null; every position observable in a valid execution
is overwritten right after allocation. -/
def growStorage (p : Rep) (n_sub : Nat) : List Handle :=
  match p with
  | Rep.inline => List.replicate n_sub none
  | Rep.heap a => a.take n_sub ++ List.replicate (n_sub - a.length) none

/-- The array held by slot `s` (of current `short int` width `szi`) after
the growth path of `cs_field_pointer_map_indexed` ran for sub-index `i`:
allocation of `n_sub = i + 1` elements, then `p[0] = f`, then the loop
`for (int k = _sublist_size[e]; k < n_sub; k++) p[k] = nullptr`, then the
final store `p[i] = h`. The loop is rendered by its effect on the freshly
sized array: positions below `szi` kept, positions from `szi` on set to
null — via the clamp `szi.toNat`, since when `szi` is negative (a wrapped
width) the loop also writes the out-of-bounds indices `szi .. -1`, which
do not exist in the array; those writes are modeled only by their
in-array effect here and are flagged by `map_indexed_body_checked`. -/
def grownArr (s : Slot) (szi : Int) (i : Nat) (h : Handle) : List Handle :=
  ((((growStorage s.p (i + 1)).set 0 s.f).take szi.toNat ++
      List.replicate ((i + 1) - szi.toNat) none).set i h)

/-- Model of lines 243–267 of `cs_field_pointer_map_indexed` — the body
after the asserts and lazy initialization — for an in-range enumerator `e`
and a non-negative sub-index `i`.  Width comparisons promote the
`short int` to `int` (value-preserving, `Int` here); the growth path
stores the new width `n_sub = i + 1` through the `int`-to-`short`
conversion `wrap16`. -/
def map_indexed_body (r : Registry) (e i : Nat) (h : Handle) : Registry :=
  if i = 0 ∧ r.sublist_size.getD e 0 ≤ 1 then
    { field_pointer := r.field_pointer.set e
        { (r.field_pointer.getD e dSlot) with f := h },
      sublist_size := r.sublist_size.set e 1 }
  else if r.sublist_size.getD e 0 ≤ (i : Int) then
    { field_pointer := r.field_pointer.set e
        { (r.field_pointer.getD e dSlot) with
            p := Rep.heap (grownArr (r.field_pointer.getD e dSlot)
                    (r.sublist_size.getD e 0) i h) },
      sublist_size := r.sublist_size.set e (wrap16 ((i : Int) + 1)) }
  else
    { r with field_pointer :=
        r.field_pointer.set e (writeP (r.field_pointer.getD e dSlot) i h) }

/-- Model of `cs_field_pointer_map_indexed`: `assert(index >= 0)`, lazy
initialization of the singleton, `assert(e < _n_pointers)`, then the body.
`none` models an assert failure (a fatal contract violation). The
enumerator, a `cs_field_pointer_id_t` value, is non-negative and is
modeled as a `Nat`; the sub-index is a C `int`, modeled as `Int` so the
negativity check is expressible (overflow of `int` itself, only possible
at `index + 1` for `index = 2^31 - 1`, is below the allocation-failure
abort and out of scope). -/
def cs_field_pointer_map_indexed (n : Nat) (st : PtrState) (e : Nat)
    (index : Int) (h : Handle) : Option Registry :=
  if index < 0 then none
  else
    match st with
    | none =>
        if e < (init_pointers n).field_pointer.length then
          some (map_indexed_body (init_pointers n) e index.toNat h)
        else none
    | some r =>
        if e < r.field_pointer.length then
          some (map_indexed_body r e index.toNat h)
        else none

/-- Model of `cs_field_pointer_map`: exactly
`cs_field_pointer_map_indexed(e, 0, f)`. -/
def cs_field_pointer_map (n : Nat) (st : PtrState) (e : Nat) (h : Handle) :
    Option Registry :=
  cs_field_pointer_map_indexed n st e 0 h

/-- Modelled from the spec: the read-side lookup (macros `CS_FI_`/`CS_F_`,
declared in `cs_field_pointer.h`, which is not among the sources) fetches
the handle of slot `e` at sub-index `i` by reading through the slot's `p`
pointer; an unmapped slot yields a null handle, and a sub-index other
than 0 on an inline slot — out of bounds in C — is modeled as null. -/
def lookup (r : Registry) (e : Nat) (i : Nat) : Handle :=
  match (r.field_pointer.getD e dSlot).p with
  | Rep.inline => if i = 0 then (r.field_pointer.getD e dSlot).f else none
  | Rep.heap a => a.getD i none

/-- A registry-mutating operation, for stating reachability and lifetime
invariants over operation sequences. -/
inductive Op where
  | ensure_init : Op
  | map : Nat → Handle → Op
  | map_indexed : Nat → Int → Handle → Op
deriving DecidableEq, Repr

/-- Run one operation on the singleton state; `none` models an assert
failure aborting the run. -/
def runOp (n : Nat) (st : PtrState) : Op → Option PtrState
  | Op.ensure_init => some (cs_field_pointer_ensure_init n st)
  | Op.map e h => (cs_field_pointer_map n st e h).map some
  | Op.map_indexed e index h =>
      (cs_field_pointer_map_indexed n st e index h).map some

/-- Run a sequence of operations on the singleton state. -/
def runOps (n : Nat) (st : PtrState) : List Op → Option PtrState
  | [] => some st
  | op :: ops =>
      match runOp n st op with
      | none => none
      | some st' => runOps n st' ops

/-- Registry states reachable from the fresh initialized state through
valid (assert-passing) operations. -/
inductive Reachable (n : Nat) : Registry → Prop where
  | init : Reachable n (init_pointers n)
  | step {r r' : Registry} (op : Op) : Reachable n r →
      runOp n (some r) op = some (some r') → Reachable n r'

/-- Bounds-checked replay of `map_indexed_body`: every array read and
write the source performs is preceded by an explicit bounds check against
the tracked allocation sizes, and `none` signals an out-of-range access.
Beyond the reads of `_sublist_size[e]` and `_field_pointer[e]`, the
growth path's nulling loop starts at `_sublist_size[e]`, so it stays in
range only when that width is non-negative (a wrapped width makes it
write indices from -32768 up); the stores `p[0] = f` and `p[index] = h`
of the growth path hit an array allocated with `index + 1` elements and
are in range; and the non-growing write `p[index]` needs
`index < allocated length` on a heap slot, or `index = 0` (targeting `f`
itself) on an inline slot. -/
def map_indexed_body_checked (r : Registry) (e i : Nat) (h : Handle) :
    Option Registry :=
  if e < r.sublist_size.length ∧ e < r.field_pointer.length then
    if i = 0 ∧ r.sublist_size.getD e 0 ≤ 1 then
      some { field_pointer := r.field_pointer.set e
               { (r.field_pointer.getD e dSlot) with f := h },
             sublist_size := r.sublist_size.set e 1 }
    else if r.sublist_size.getD e 0 ≤ (i : Int) then
      if 0 ≤ r.sublist_size.getD e 0 then
        some { field_pointer := r.field_pointer.set e
                 { (r.field_pointer.getD e dSlot) with
                     p := Rep.heap (grownArr (r.field_pointer.getD e dSlot)
                             (r.sublist_size.getD e 0) i h) },
               sublist_size := r.sublist_size.set e (wrap16 ((i : Int) + 1)) }
      else none
    else
      match (r.field_pointer.getD e dSlot).p with
      | Rep.inline =>
          if i = 0 then
            some { r with field_pointer :=
                     r.field_pointer.set e (writeP (r.field_pointer.getD e dSlot) i h) }
          else none
      | Rep.heap a =>
          if i < a.length then
            some { r with field_pointer :=
                     r.field_pointer.set e (writeP (r.field_pointer.getD e dSlot) i h) }
          else none
  else none

/-- Per-slot representation invariant that survives the width wrap: an
inline slot's width is 0 or 1 (those are the only width values ever
stored while `p` still aims at `f`), and a heap-expanded slot's array has
at least 2 elements and at least `width` elements (the width stored at
allocation time was `wrap16` of the length, which never exceeds it, and
later direct-branch stores write 1). Exact equality of width and length,
and the converse `width ≤ 1 → inline`, fail in wrapped states. -/
def SlotInv (s : Slot) (sz : Int) : Prop :=
  (s.p = Rep.inline → sz = 0 ∨ sz = 1) ∧
  (∀ a, s.p = Rep.heap a → 2 ≤ a.length ∧ sz ≤ (a.length : Int))

/-- Registry well-formedness: both arrays have the allocated length `n`
and every slot satisfies the per-slot invariant. -/
def Inv (n : Nat) (r : Registry) : Prop :=
  r.field_pointer.length = n ∧ r.sublist_size.length = n ∧
    ∀ e, e < n → SlotInv (r.field_pointer.getD e dSlot) (r.sublist_size.getD e 0)

/-- Concrete one-slot registry after `map_indexed(0, 0, some 10)` on the
fresh state: direct value `some 10`, width 1, still inline. -/
def S1a : Registry :=
  { field_pointer := [{ f := some 10, p := Rep.inline }],
    sublist_size := [1] }

/-- Concrete one-slot registry after additionally `map_indexed(0, 1, some 20)`:
expanded to width 2, position 0 copied from the inline value. -/
def S1b : Registry :=
  { field_pointer := [{ f := some 10, p := Rep.heap [some 10, some 20] }],
    sublist_size := [2] }

/-- Concrete one-slot registry after additionally `map_indexed(0, 0, some 30)`:
expanded position 0 was rewritten, so it now differs from the stale inline
value `f = some 10`. -/
def S1 : Registry :=
  { field_pointer := [{ f := some 10, p := Rep.heap [some 30, some 20] }],
    sublist_size := [2] }

/-- The registry after `map_indexed(0, 32767, some 1)` on the fresh
one-slot state: the growth allocates 32768 handles and the width store
`_sublist_size[e] = 32768` wraps to -32768. -/
def Wbug : Registry :=
  map_indexed_body (init_pointers 1) 0 32767 (some 1)

/-- The registry after additionally `map(0, some 2)` on `Wbug`: the
wrapped width -32768 is at most 1, so the direct branch runs, writing the
inline `f` although the slot's `p` is a heap array. -/
def Mbug : Registry :=
  map_indexed_body Wbug 0 0 (some 2)

/-- The registry after `map_indexed(0, 65535, some 3)` on the expanded
state `S1b`: the growth reallocates to 65536 handles and the width store
wraps 65536 to 0. -/
def W2bug : Registry :=
  map_indexed_body S1b 0 65535 (some 3)

/-- The registry after additionally `map(0, some 4)` on `W2bug`: the
wrapped width 0 sends `map` into the direct branch, rewriting the inline
`f` of a slot that had been expanded. -/
def Vbug : Registry :=
  map_indexed_body W2bug 0 0 (some 4)

/-! Arithmetic of the short-int wrap. -/

theorem wrap16_eq_self {z : Int} (h1 : -32768 ≤ z) (h2 : z ≤ 32767) :
    wrap16 z = z := by
  unfold wrap16
  omega

theorem wrap16_le {z : Int} (hz : 0 ≤ z) : wrap16 z ≤ z := by
  unfold wrap16
  omega

/-! Helper lemmas about `List.getD` on the array operations the model uses. -/

theorem getD_set_self {α : Type} (l : List α) (i : Nat) (x d : α)
    (hi : i < l.length) : (l.set i x).getD i d = x := by
  simp [List.getD, List.getElem?_set_eq_of_lt, hi]

theorem getD_set_ne {α : Type} (l : List α) {i j : Nat} (x d : α)
    (hij : i ≠ j) : (l.set i x).getD j d = l.getD j d := by
  simp [List.getD, List.getElem?_set_ne hij]

theorem getD_replicate {α : Type} {n i : Nat} (x d : α) (hi : i < n) :
    (List.replicate n x).getD i d = x := by
  simp [List.getD, List.getElem?_replicate, hi]

theorem getD_append_left {α : Type} (l₁ l₂ : List α) {i : Nat} (d : α)
    (hi : i < l₁.length) : (l₁ ++ l₂).getD i d = l₁.getD i d := by
  simp [List.getD, List.getElem?_append, hi]

theorem getD_append_right {α : Type} (l₁ l₂ : List α) {i : Nat} (d : α)
    (hi : l₁.length ≤ i) : (l₁ ++ l₂).getD i d = l₂.getD (i - l₁.length) d := by
  simp [List.getD, List.getElem?_append_right hi]

theorem getD_take {α : Type} (l : List α) {n i : Nat} (d : α) (hi : i < n) :
    (l.take n).getD i d = l.getD i d := by
  simp [List.getD, List.getElem?_take, hi]

theorem getD_of_length_le {α : Type} (l : List α) {i : Nat} (d : α)
    (hi : l.length ≤ i) : l.getD i d = d := by
  simp [List.getD, List.getElem?_eq_none, hi]

/-! Shape of the array produced by the growth path. -/

theorem growStorage_length (p : Rep) (n : Nat) : (growStorage p n).length = n := by
  cases p with
  | inline => simp [growStorage]
  | heap a => simp [growStorage]; omega

theorem grownArr_pre_length (s : Slot) (szi : Int) (i : Nat) :
    ((((growStorage s.p (i + 1)).set 0 s.f).take szi.toNat ++
        List.replicate ((i + 1) - szi.toNat) none)).length = i + 1 := by
  simp [growStorage_length]
  omega

theorem grownArr_length (s : Slot) (szi : Int) (i : Nat) (h : Handle) :
    (grownArr s szi i h).length = i + 1 := by
  unfold grownArr
  rw [List.length_set, grownArr_pre_length]

/-- The final store of the growth path: position `i` holds `h`. -/
theorem grownArr_getD_self (s : Slot) (szi : Int) (i : Nat) (h : Handle) :
    (grownArr s szi i h).getD i none = h := by
  unfold grownArr
  exact getD_set_self _ _ _ _ (by rw [grownArr_pre_length]; omega)

/-- After growth, position 0 holds the slot's inline value `f`
(the unconditional `p[0] = f` store of the source), provided the nulling
loop starts above 0. -/
theorem grownArr_getD_zero (s : Slot) (szi : Int) (i : Nat) (h : Handle)
    (h0 : 0 < szi.toNat) (hi : 0 < i) : (grownArr s szi i h).getD 0 none = s.f := by
  unfold grownArr
  rw [getD_set_ne _ _ _ (by omega : i ≠ 0)]
  rw [getD_append_left _ _ _ (by simp [growStorage_length]; omega)]
  rw [getD_take _ _ h0]
  exact getD_set_self _ _ _ _ (by rw [growStorage_length]; omega)

/-- After growth of an expanded slot, positions `1 ≤ j` below the nulling
loop's start keep the values of the reallocated array. -/
theorem grownArr_getD_keep (s : Slot) (a : List Handle) (szi : Int)
    (i j : Nat) (h : Handle) (hp : s.p = Rep.heap a)
    (hlen : szi.toNat ≤ a.length) (h1 : 1 ≤ j) (hj : j < szi.toNat)
    (hsz : szi.toNat ≤ i) :
    (grownArr s szi i h).getD j none = a.getD j none := by
  unfold grownArr
  rw [getD_set_ne _ _ _ (by omega : i ≠ j)]
  rw [getD_append_left _ _ _ (by simp [growStorage_length]; omega)]
  rw [getD_take _ _ hj]
  rw [getD_set_ne _ _ _ (by omega : (0 : Nat) ≠ j)]
  rw [hp]
  simp only [growStorage]
  rw [getD_append_left _ _ _ (by simp; omega)]
  exact getD_take _ _ (by omega)

/-- After growth, the freshly created positions from the nulling loop's
start up to `i - 1` hold null. -/
theorem grownArr_getD_mid (s : Slot) (szi : Int) (i j : Nat) (h : Handle)
    (hlo : szi.toNat ≤ j) (hhi : j < i) : (grownArr s szi i h).getD j none = none := by
  unfold grownArr
  rw [getD_set_ne _ _ _ (by omega : i ≠ j)]
  have hlen : ((((growStorage s.p (i + 1)).set 0 s.f).take szi.toNat)).length =
      min szi.toNat (i + 1) := by
    simp [growStorage_length]
  rw [getD_append_right _ _ _ (by rw [hlen]; omega)]
  rw [hlen]
  exact getD_replicate _ _ (by omega)

/-! Case characterizations of `map_indexed_body`. -/

theorem body_direct (r : Registry) (e i : Nat) (h : Handle)
    (hc : i = 0 ∧ r.sublist_size.getD e 0 ≤ 1) :
    map_indexed_body r e i h =
      { field_pointer := r.field_pointer.set e
          { (r.field_pointer.getD e dSlot) with f := h },
        sublist_size := r.sublist_size.set e 1 } := by
  unfold map_indexed_body
  rw [if_pos hc]

theorem body_grow (r : Registry) (e i : Nat) (h : Handle)
    (hc : ¬(i = 0 ∧ r.sublist_size.getD e 0 ≤ 1))
    (hg : r.sublist_size.getD e 0 ≤ (i : Int)) :
    map_indexed_body r e i h =
      { field_pointer := r.field_pointer.set e
          { (r.field_pointer.getD e dSlot) with
              p := Rep.heap (grownArr (r.field_pointer.getD e dSlot)
                      (r.sublist_size.getD e 0) i h) },
        sublist_size := r.sublist_size.set e (wrap16 ((i : Int) + 1)) } := by
  unfold map_indexed_body
  rw [if_neg hc, if_pos hg]

theorem body_write (r : Registry) (e i : Nat) (h : Handle)
    (hc : ¬(i = 0 ∧ r.sublist_size.getD e 0 ≤ 1))
    (hg : ¬ r.sublist_size.getD e 0 ≤ (i : Int)) :
    map_indexed_body r e i h =
      { r with field_pointer :=
          r.field_pointer.set e (writeP (r.field_pointer.getD e dSlot) i h) } := by
  unfold map_indexed_body
  rw [if_neg hc, if_neg hg]

theorem body_lengths (r : Registry) (e i : Nat) (h : Handle) :
    (map_indexed_body r e i h).field_pointer.length = r.field_pointer.length ∧
    (map_indexed_body r e i h).sublist_size.length = r.sublist_size.length := by
  unfold map_indexed_body
  split_ifs <;> simp

theorem body_sublist_getD_ne (r : Registry) (e i : Nat) (h : Handle) {e' : Nat}
    (hne : e' ≠ e) :
    (map_indexed_body r e i h).sublist_size.getD e' 0 =
      r.sublist_size.getD e' 0 := by
  unfold map_indexed_body
  split_ifs
  · exact getD_set_ne _ _ _ (Ne.symm hne)
  · exact getD_set_ne _ _ _ (Ne.symm hne)
  · rfl

theorem body_slot_getD_ne (r : Registry) (e i : Nat) (h : Handle) {e' : Nat}
    (hne : e' ≠ e) :
    (map_indexed_body r e i h).field_pointer.getD e' dSlot =
      r.field_pointer.getD e' dSlot := by
  unfold map_indexed_body
  split_ifs
  · exact getD_set_ne _ _ _ (Ne.symm hne)
  · exact getD_set_ne _ _ _ (Ne.symm hne)
  · exact getD_set_ne _ _ _ (Ne.symm hne)

/-! Behaviour of `writeP` under a known representation. -/

theorem writeP_heap (s : Slot) (a : List Handle) (i : Nat) (h : Handle)
    (hp : s.p = Rep.heap a) :
    writeP s i h = { s with p := Rep.heap (a.set i h) } := by
  unfold writeP
  rw [hp]

theorem writeP_inline_zero (s : Slot) (h : Handle) (hp : s.p = Rep.inline) :
    writeP s 0 h = { s with f := h } := by
  unfold writeP
  rw [hp]
  rfl

/-! Effect of `map_indexed_body` on the written slot, per case. -/

theorem body_direct_at (r : Registry) (e i : Nat) (h : Handle)
    (hc : i = 0 ∧ r.sublist_size.getD e 0 ≤ 1)
    (hfpe : e < r.field_pointer.length) (hsle : e < r.sublist_size.length) :
    (map_indexed_body r e i h).field_pointer.getD e dSlot =
      { (r.field_pointer.getD e dSlot) with f := h } ∧
    (map_indexed_body r e i h).sublist_size.getD e 0 = 1 := by
  rw [body_direct r e i h hc]
  exact ⟨getD_set_self _ _ _ _ hfpe, getD_set_self _ _ _ _ hsle⟩

theorem body_grow_at (r : Registry) (e i : Nat) (h : Handle)
    (hc : ¬(i = 0 ∧ r.sublist_size.getD e 0 ≤ 1))
    (hg : r.sublist_size.getD e 0 ≤ (i : Int))
    (hfpe : e < r.field_pointer.length) (hsle : e < r.sublist_size.length) :
    (map_indexed_body r e i h).field_pointer.getD e dSlot =
      { (r.field_pointer.getD e dSlot) with
          p := Rep.heap (grownArr (r.field_pointer.getD e dSlot)
                  (r.sublist_size.getD e 0) i h) } ∧
    (map_indexed_body r e i h).sublist_size.getD e 0 = wrap16 ((i : Int) + 1) := by
  rw [body_grow r e i h hc hg]
  exact ⟨getD_set_self _ _ _ _ hfpe, getD_set_self _ _ _ _ hsle⟩

theorem body_write_at (r : Registry) (e i : Nat) (h : Handle)
    (hc : ¬(i = 0 ∧ r.sublist_size.getD e 0 ≤ 1))
    (hg : ¬ r.sublist_size.getD e 0 ≤ (i : Int))
    (hfpe : e < r.field_pointer.length) :
    (map_indexed_body r e i h).field_pointer.getD e dSlot =
      writeP (r.field_pointer.getD e dSlot) i h ∧
    (map_indexed_body r e i h).sublist_size = r.sublist_size := by
  rw [body_write r e i h hc hg]
  exact ⟨getD_set_self _ _ _ _ hfpe, rfl⟩

/-! Wrapper and operation-step characterizations. -/

theorem map_indexed_eq_body (n : Nat) (r : Registry) (e : Nat) (index : Int)
    (h : Handle) (h0 : 0 ≤ index) (he : e < r.field_pointer.length) :
    cs_field_pointer_map_indexed n (some r) e index h =
      some (map_indexed_body r e index.toNat h) := by
  simp only [cs_field_pointer_map_indexed]
  rw [if_neg (by omega : ¬ index < 0), if_pos he]

theorem map_indexed_some_inv {n : Nat} {r : Registry} {e : Nat} {index : Int}
    {h : Handle} {r' : Registry}
    (hrun : cs_field_pointer_map_indexed n (some r) e index h = some r') :
    0 ≤ index ∧ e < r.field_pointer.length ∧
      r' = map_indexed_body r e index.toNat h := by
  by_cases h0 : index < 0
  · simp [cs_field_pointer_map_indexed, h0] at hrun
  · by_cases he : e < r.field_pointer.length
    · rw [map_indexed_eq_body n r e index h (by omega) he] at hrun
      exact ⟨by omega, he, (Option.some_inj.mp hrun).symm⟩
    · simp [cs_field_pointer_map_indexed, h0, he] at hrun

/-- Every successful operation step on an initialized state either leaves
the registry unchanged (`ensure_init`) or applies `map_indexed_body` at an
in-range enumerator. -/
theorem runOp_some_cases {n : Nat} {r : Registry} {st' : PtrState} {op : Op}
    (hrun : runOp n (some r) op = some st') :
    st' = some r ∨
      ∃ e i h, e < r.field_pointer.length ∧
        st' = some (map_indexed_body r e i h) := by
  cases op with
  | ensure_init =>
      left
      simp only [runOp, cs_field_pointer_ensure_init] at hrun
      exact (Option.some_inj.mp hrun).symm
  | map e h =>
      right
      simp only [runOp, Option.map_eq_some'] at hrun
      obtain ⟨r1, hr1, hst⟩ := hrun
      obtain ⟨h0, he, hbody⟩ := map_indexed_some_inv
        (show cs_field_pointer_map_indexed n (some r) e 0 h = some r1 from hr1)
      exact ⟨e, (0 : Int).toNat, h, he, by rw [← hst, hbody]⟩
  | map_indexed e index h =>
      right
      simp only [runOp, Option.map_eq_some'] at hrun
      obtain ⟨r1, hr1, hst⟩ := hrun
      obtain ⟨h0, he, hbody⟩ := map_indexed_some_inv hr1
      exact ⟨e, index.toNat, h, he, by rw [← hst, hbody]⟩

/-! The wrap-proof representation invariant holds in every reachable
state. -/

theorem inv_init (n : Nat) : Inv n (init_pointers n) := by
  refine ⟨by simp [init_pointers], by simp [init_pointers], fun e he => ?_⟩
  show SlotInv ((List.replicate n { f := none, p := Rep.inline }).getD e dSlot)
      ((List.replicate n (0 : Int)).getD e 0)
  rw [getD_replicate _ _ he, getD_replicate _ _ he]
  exact ⟨fun _ => Or.inl rfl, fun a ha => by cases ha⟩

theorem inv_body (n : Nat) (r : Registry) (e i : Nat) (h : Handle)
    (hinv : Inv n r) (he : e < n) : Inv n (map_indexed_body r e i h) := by
  obtain ⟨hfp, hsl, hslot⟩ := hinv
  have hfpe : e < r.field_pointer.length := by omega
  have hsle : e < r.sublist_size.length := by omega
  refine ⟨by rw [(body_lengths r e i h).1, hfp],
          by rw [(body_lengths r e i h).2, hsl], fun e' he' => ?_⟩
  by_cases hee : e' = e
  · subst hee
    by_cases hc : i = 0 ∧ r.sublist_size.getD e' 0 ≤ 1
    · obtain ⟨hat, hsz⟩ := body_direct_at r e' i h hc hfpe hsle
      rw [hat, hsz]
      refine ⟨fun _ => Or.inr rfl, fun a hp => ?_⟩
      obtain ⟨h2, _⟩ := (hslot e' he').2 a hp
      exact ⟨h2, by omega⟩
    · by_cases hg : r.sublist_size.getD e' 0 ≤ (i : Int)
      · obtain ⟨hat, hsz⟩ := body_grow_at r e' i h hc hg hfpe hsle
        rw [hat, hsz]
        have hi0 : i ≠ 0 := by
          intro h0
          subst h0
          exact hc ⟨rfl, by omega⟩
        refine ⟨fun hp => Rep.noConfusion hp, fun a hp => ?_⟩
        injection hp with hpa
        rw [← hpa, grownArr_length]
        have hwle : wrap16 ((i : Int) + 1) ≤ (i : Int) + 1 :=
          wrap16_le (by omega)
        exact ⟨by omega, by push_cast; omega⟩
      · obtain ⟨hat, hsz⟩ := body_write_at r e' i h hc hg hfpe
        rw [hat, hsz]
        cases hp : (r.field_pointer.getD e' dSlot).p with
        | inline =>
            have h01 := (hslot e' he').1 hp
            exact absurd ⟨by omega, by omega⟩ hc
        | heap a =>
            obtain ⟨h2, hle⟩ := (hslot e' he').2 a hp
            rw [writeP_heap _ a i h hp]
            refine ⟨fun hq => Rep.noConfusion hq, fun a' hq => ?_⟩
            injection hq with hq'
            rw [← hq', List.length_set]
            exact ⟨h2, hle⟩
  · rw [body_sublist_getD_ne r e i h hee, body_slot_getD_ne r e i h hee]
    exact hslot e' he'

theorem reachable_inv {n : Nat} {r : Registry} (hr : Reachable n r) :
    Inv n r := by
  induction hr with
  | init => exact inv_init n
  | step op hr hrun ih =>
      rcases runOp_some_cases hrun with hid | ⟨e, i, h, he, hbody⟩
      · rw [Option.some_inj.mp hid]
        exact ih
      · rw [Option.some_inj.mp hbody]
        exact inv_body n _ e i h ih (by rw [← ih.1]; exact he)

/-! Reading a slot through its `p` pointer. -/

theorem lookup_heap (r : Registry) (e i : Nat) (a : List Handle)
    (hp : (r.field_pointer.getD e dSlot).p = Rep.heap a) :
    lookup r e i = a.getD i none := by
  unfold lookup
  rw [hp]

theorem lookup_inline_zero (r : Registry) (e : Nat)
    (hp : (r.field_pointer.getD e dSlot).p = Rep.inline) :
    lookup r e 0 = (r.field_pointer.getD e dSlot).f := by
  unfold lookup
  rw [hp]
  rfl

/-- In a reachable state, a slot of width above 1 owns a heap array of at
least 2 and at least `width` elements. -/
theorem heap_of_one_lt {n : Nat} {r : Registry} (hinv : Inv n r) {e : Nat}
    (he : e < n) (hlt : 1 < r.sublist_size.getD e 0) :
    ∃ a, (r.field_pointer.getD e dSlot).p = Rep.heap a ∧
      2 ≤ a.length ∧ r.sublist_size.getD e 0 ≤ (a.length : Int) := by
  cases hp : (r.field_pointer.getD e dSlot).p with
  | inline =>
      have := (hinv.2.2 e he).1 hp
      omega
  | heap a =>
      obtain ⟨h2, hle⟩ := (hinv.2.2 e he).2 a hp
      exact ⟨a, rfl, h2, hle⟩

/-! Reachability of the concrete states. -/

theorem S1a_reachable : Reachable 1 S1a :=
  Reachable.step (Op.map_indexed 0 0 (some 10)) Reachable.init (by decide)

theorem S1b_reachable : Reachable 1 S1b :=
  Reachable.step (Op.map_indexed 0 1 (some 20)) S1a_reachable (by decide)

theorem S1_reachable : Reachable 1 S1 :=
  Reachable.step (Op.map_indexed 0 0 (some 30)) S1b_reachable (by decide)

theorem Wbug_step :
    runOp 1 (some (init_pointers 1)) (Op.map_indexed 0 32767 (some 1)) =
      some (some Wbug) := by
  simp only [runOp]
  rw [map_indexed_eq_body 1 (init_pointers 1) 0 32767 (some 1) (by norm_num)
    (by simp [init_pointers])]
  rfl

theorem Wbug_reachable : Reachable 1 Wbug :=
  Reachable.step (Op.map_indexed 0 32767 (some 1)) Reachable.init Wbug_step

theorem W2bug_step :
    runOp 1 (some S1b) (Op.map_indexed 0 65535 (some 3)) =
      some (some W2bug) := by
  simp only [runOp]
  rw [map_indexed_eq_body 1 S1b 0 65535 (some 3) (by norm_num) (by decide)]
  rfl

theorem W2bug_reachable : Reachable 1 W2bug :=
  Reachable.step (Op.map_indexed 0 65535 (some 3)) S1b_reachable W2bug_step

/-! Claim theorems. -/

/-- C6: `ensure_init` is idempotent; on an unset singleton it builds the
registry with both arrays at the fixed enumerator count `n`, every direct
handle null (and inline) and every width 0; on a set singleton it changes
nothing. -/
theorem C6_ensure_init_idempotent (n : Nat) (st : PtrState) :
    cs_field_pointer_ensure_init n (cs_field_pointer_ensure_init n st) =
      cs_field_pointer_ensure_init n st ∧
    cs_field_pointer_ensure_init n none = some (init_pointers n) ∧
    (∀ r, cs_field_pointer_ensure_init n (some r) = some r) ∧
    (init_pointers n).field_pointer.length = n ∧
    (init_pointers n).sublist_size.length = n ∧
    (∀ e, ((init_pointers n).field_pointer.getD e dSlot).f = none ∧
          ((init_pointers n).field_pointer.getD e dSlot).p = Rep.inline ∧
          (init_pointers n).sublist_size.getD e 0 = 0) := by
  refine ⟨by cases st <;> rfl, rfl, fun r => rfl,
          by simp [init_pointers], by simp [init_pointers], fun e => ?_⟩
  by_cases he : e < n
  · unfold init_pointers
    rw [getD_replicate _ _ he, getD_replicate _ _ he]
    exact ⟨rfl, rfl, rfl⟩
  · unfold init_pointers
    rw [getD_of_length_le _ _ (by simp; omega),
        getD_of_length_le _ _ (by simp; omega)]
    exact ⟨rfl, rfl, rfl⟩

/-- C7: for an initialized state, `destroy_all` leaves the singleton
unset, and a subsequent `ensure_init` rebuilds the registry with every
direct handle null and every width 0 — the state of a first-ever
initialization. -/
theorem C7_destroy_then_init (n : Nat) (r : Registry) :
    cs_field_pointer_destroy_all (some r) = none ∧
    cs_field_pointer_ensure_init n (cs_field_pointer_destroy_all (some r)) =
      some (init_pointers n) ∧
    (∀ e, ((init_pointers n).field_pointer.getD e dSlot).f = none ∧
          (init_pointers n).sublist_size.getD e 0 = 0) := by
  refine ⟨rfl, rfl, fun e => ?_⟩
  by_cases he : e < n
  · unfold init_pointers
    rw [getD_replicate _ _ he, getD_replicate _ _ he]
    exact ⟨rfl, rfl⟩
  · unfold init_pointers
    rw [getD_of_length_le _ _ (by simp; omega),
        getD_of_length_le _ _ (by simp; omega)]
    exact ⟨rfl, rfl⟩

/-- C1 counterexample: the reachable state `S1` has slot 0 expanded with
width 2 and current position 0 equal to `some 30` (set after expansion),
while the stale inline value is `f = some 10`; growing with
`map_indexed(0, 3, some 40)` resets position 0 to `some 10`, so the handle
previously stored at position 0 — a position strictly below the old
width — is not unchanged, refuting the claim. -/
theorem C1_counterexample :
    Reachable 1 S1 ∧
    1 < S1.sublist_size.getD 0 0 ∧
    S1.sublist_size.getD 0 0 ≤ 3 ∧
    lookup S1 0 0 = some 30 ∧
    cs_field_pointer_map_indexed 1 (some S1) 0 3 (some 40) =
      some { field_pointer := [{ f := some 10, p := Rep.heap [some 10, some 20, none, some 40] }],
             sublist_size := [4] } ∧
    ¬ (some 10 : Handle) = some 30 :=
  ⟨S1_reachable, by decide, by decide, by decide, by decide, by decide⟩

/-- C1 (amended): growing an already-expanded slot `e`
(`1 < sublist_size[e] ≤ index`) with `map_indexed(e, index, h)` keeps the
handles at positions `1 .. old width - 1`, nulls positions from the old
width up to `index - 1`, stores `h` at `index` and sets the width to the
`short int` wrap of `index + 1` (equal to `index + 1` whenever
`index + 1 ≤ 32767`); position 0, however, is reset to the slot's saved
inline value `f` (the source's unconditional `p[0] = f` store), which is
the value of the last direct mapping and need not equal the handle stored
at position 0 before the call. -/
theorem C1_grow_expanded {n : Nat} {r : Registry} (hr : Reachable n r)
    (e : Nat) (he : e < n) (index : Nat) (h : Handle)
    (hexp : 1 < r.sublist_size.getD e 0)
    (hidx : r.sublist_size.getD e 0 ≤ (index : Int)) :
    cs_field_pointer_map_indexed n (some r) e (index : Int) h =
      some (map_indexed_body r e index h) ∧
    lookup (map_indexed_body r e index h) e 0 =
      (r.field_pointer.getD e dSlot).f ∧
    (∀ j : Nat, 1 ≤ j → (j : Int) < r.sublist_size.getD e 0 →
      lookup (map_indexed_body r e index h) e j = lookup r e j) ∧
    (∀ j : Nat, r.sublist_size.getD e 0 ≤ (j : Int) → j < index →
      lookup (map_indexed_body r e index h) e j = none) ∧
    lookup (map_indexed_body r e index h) e index = h ∧
    (map_indexed_body r e index h).sublist_size.getD e 0 =
      wrap16 ((index : Int) + 1) ∧
    ((index : Int) + 1 ≤ 32767 →
      (map_indexed_body r e index h).sublist_size.getD e 0 = (index : Int) + 1) := by
  have hinv := reachable_inv hr
  have hfpe : e < r.field_pointer.length := by
    rw [hinv.1]
    exact he
  have hsle : e < r.sublist_size.length := by
    rw [hinv.2.1]
    exact he
  obtain ⟨a, hp, ha2, hal⟩ := heap_of_one_lt hinv he hexp
  have hc : ¬(index = 0 ∧ r.sublist_size.getD e 0 ≤ 1) :=
    fun hcc => absurd hcc.2 (by omega)
  obtain ⟨hat, hwid⟩ := body_grow_at r e index h hc hidx hfpe hsle
  have hph : ((map_indexed_body r e index h).field_pointer.getD e dSlot).p =
      Rep.heap (grownArr (r.field_pointer.getD e dSlot)
        (r.sublist_size.getD e 0) index h) := by
    rw [hat]
  refine ⟨map_indexed_eq_body n r e index h (Int.natCast_nonneg index) hfpe,
          ?_, ?_, ?_, ?_, hwid, fun hsmall => ?_⟩
  · rw [lookup_heap _ e 0 _ hph]
    exact grownArr_getD_zero _ _ _ _ (by omega) (by omega)
  · intro j h1 hj
    rw [lookup_heap _ e j _ hph, lookup_heap r e j a hp]
    exact grownArr_getD_keep _ a _ _ _ _ hp (by omega) h1 (by omega) (by omega)
  · intro j hlo hhi
    rw [lookup_heap _ e j _ hph]
    exact grownArr_getD_mid _ _ _ _ _ (by omega) hhi
  · rw [lookup_heap _ e index _ hph]
    exact grownArr_getD_self _ _ _ _
  · rw [hwid]
    exact wrap16_eq_self (by omega) (by omega)

/-- C1 witness: growing the reachable expanded state `S1` at index 3
stores the new handle at 3, keeps position 1, nulls position 2, resets
position 0 to the saved inline value, and sets the width to 4. -/
theorem C1_grow_expanded_witness :
    lookup (map_indexed_body S1 0 3 (some 40)) 0 0 =
      (S1.field_pointer.getD 0 dSlot).f ∧
    lookup (map_indexed_body S1 0 3 (some 40)) 0 1 = lookup S1 0 1 ∧
    lookup (map_indexed_body S1 0 3 (some 40)) 0 2 = none ∧
    lookup (map_indexed_body S1 0 3 (some 40)) 0 3 = some 40 ∧
    (map_indexed_body S1 0 3 (some 40)).sublist_size.getD 0 0 = (3 : Int) + 1 := by
  obtain ⟨_, h0, hkeep, hmid, hself, _, hwid⟩ :=
    C1_grow_expanded S1_reachable 0 (by decide) 3 (some 40) (by decide)
      (by decide)
  exact ⟨h0, hkeep 1 (by decide) (by decide), hmid 2 (by decide) (by decide),
         hself, hwid (by decide)⟩

/-- C2 counterexample: in the reachable state `S1` slot 0 is expanded
(width 2); `map(0, some 99)` then leaves the width at 2 — not 1 — and
leaves the direct value `f = some 10` — not `some 99` — refuting the claim
for states with an expanded slot. -/
theorem C2_counterexample :
    Reachable 1 S1 ∧
    1 < S1.sublist_size.getD 0 0 ∧
    cs_field_pointer_map 1 (some S1) 0 (some 99) =
      some { field_pointer := [{ f := some 10, p := Rep.heap [some 99, some 20] }],
             sublist_size := [2] } ∧
    ¬ (2 : Int) = 1 ∧
    ¬ (some 10 : Handle) = some 99 :=
  ⟨S1_reachable, by decide, by decide, by decide, by decide⟩

/-- C2 (amended): `map(e, h)` sets slot `e`'s direct value to `h` and its
width to 1 only when the slot is not yet expanded (width ≤ 1); on an
expanded slot it instead overwrites expanded position 0 through `p`,
leaving the width and the inline direct value unchanged. -/
theorem C2_map_direct {n : Nat} {r : Registry} (hr : Reachable n r)
    (e : Nat) (he : e < n) (h : Handle) :
    (r.sublist_size.getD e 0 ≤ 1 →
      cs_field_pointer_map n (some r) e h =
        some { field_pointer :=
                 r.field_pointer.set e { (r.field_pointer.getD e dSlot) with f := h },
               sublist_size := r.sublist_size.set e 1 }) ∧
    (1 < r.sublist_size.getD e 0 →
      ∃ a, (r.field_pointer.getD e dSlot).p = Rep.heap a ∧
        cs_field_pointer_map n (some r) e h =
          some { r with field_pointer :=
                   r.field_pointer.set e { (r.field_pointer.getD e dSlot) with p := Rep.heap (a.set 0 h) } }) := by
  have hinv := reachable_inv hr
  have hfpe : e < r.field_pointer.length := by
    rw [hinv.1]
    exact he
  have hmap : cs_field_pointer_map n (some r) e h =
      some (map_indexed_body r e 0 h) :=
    map_indexed_eq_body n r e 0 h (by norm_num) hfpe
  constructor
  · intro hle
    rw [hmap, body_direct r e 0 h ⟨rfl, hle⟩]
  · intro hlt
    obtain ⟨a, hp, _, _⟩ := heap_of_one_lt hinv he hlt
    refine ⟨a, hp, ?_⟩
    rw [hmap, body_write r e 0 h (fun hcc => absurd hcc.2 (by omega)) (by omega),
        writeP_heap _ a 0 h hp]

/-- C2 witness: on the reachable direct state `S1a` (width 1), `map`
overwrites the direct value and keeps width 1. -/
theorem C2_map_direct_witness :
    cs_field_pointer_map 1 (some S1a) 0 (some 77) =
      some { field_pointer :=
               S1a.field_pointer.set 0 { (S1a.field_pointer.getD 0 dSlot) with f := some 77 },
             sublist_size := S1a.sublist_size.set 0 1 } :=
  (C2_map_direct S1a_reachable 0 (by decide) (some 77)).1 (by decide)

/-- C3 exhibits the width-wrap code bug: `map_indexed(0, 32767, some 1)`
on the fresh registry stores the wrapped width -32768; `map(0, some 2)`
then takes the direct branch (width ≤ 1) and writes only the inline `f`,
while the lookup of slot 0 at sub-index 0 reads through the heap `p` and
returns the stale null entry instead of `some 2` — the claim is the
intended behaviour and the `short int` width counter the slip. -/
theorem C3_wrap_bug :
    Reachable 1 Wbug ∧
    Wbug.sublist_size.getD 0 0 = -32768 ∧
    runOp 1 (some Wbug) (Op.map 0 (some 2)) = some (some Mbug) ∧
    (Mbug.field_pointer.getD 0 dSlot).f = some 2 ∧
    lookup Mbug 0 0 = none ∧
    ¬ (none : Handle) = some 2 := by
  refine ⟨Wbug_reachable, by rfl, ?_, by rfl, by rfl, by decide⟩
  simp only [runOp, cs_field_pointer_map]
  rw [map_indexed_eq_body 1 Wbug 0 0 (some 2) (by norm_num) (by decide)]
  rfl

/-- C4 counterexample: on the reachable direct state `S1a` (width 1),
`map_indexed(0, 32767, some 9)` expands the slot but the width store
`_sublist_size[e] = 32768` wraps the `short int` to -32768, not
`index + 1`. -/
theorem C4_counterexample :
    Reachable 1 S1a ∧
    S1a.sublist_size.getD 0 0 = 1 ∧
    (0 : Nat) < 32767 ∧
    (map_indexed_body S1a 0 32767 (some 9)).sublist_size.getD 0 0 = -32768 ∧
    ¬ ((-32768 : Int) = 32767 + 1) :=
  ⟨S1a_reachable, by decide, by decide, by rfl, by decide⟩

/-- C4 (amended): expanding a slot previously set by direct mapping
(width 1, direct value `v = f`) with `map_indexed(e, index, h)`,
`index > 0`, yields position 0 holding `v`, positions `1 .. index - 1`
null, position `index` holding `h`, and a width equal to the `short int`
wrap of `index + 1` — which is `index + 1` itself whenever
`index + 1 ≤ 32767`. -/
theorem C4_expand_direct {n : Nat} {r : Registry} (hr : Reachable n r)
    (e : Nat) (he : e < n) (index : Nat) (h : Handle)
    (hsz : r.sublist_size.getD e 0 = 1) (hidx : 0 < index) :
    lookup (map_indexed_body r e index h) e 0 =
      (r.field_pointer.getD e dSlot).f ∧
    (∀ j, 1 ≤ j → j < index → lookup (map_indexed_body r e index h) e j = none) ∧
    lookup (map_indexed_body r e index h) e index = h ∧
    (map_indexed_body r e index h).sublist_size.getD e 0 =
      wrap16 ((index : Int) + 1) ∧
    ((index : Int) + 1 ≤ 32767 →
      (map_indexed_body r e index h).sublist_size.getD e 0 = (index : Int) + 1) := by
  have hinv := reachable_inv hr
  have hfpe : e < r.field_pointer.length := by
    rw [hinv.1]
    exact he
  have hsle : e < r.sublist_size.length := by
    rw [hinv.2.1]
    exact he
  have hc : ¬(index = 0 ∧ r.sublist_size.getD e 0 ≤ 1) :=
    fun hcc => absurd hcc.1 (by omega)
  have hg : r.sublist_size.getD e 0 ≤ (index : Int) := by
    rw [hsz]
    omega
  obtain ⟨hat, hwid⟩ := body_grow_at r e index h hc hg hfpe hsle
  have hph : ((map_indexed_body r e index h).field_pointer.getD e dSlot).p =
      Rep.heap (grownArr (r.field_pointer.getD e dSlot)
        (r.sublist_size.getD e 0) index h) := by
    rw [hat]
  refine ⟨?_, ?_, ?_, hwid, fun hsmall => ?_⟩
  · rw [lookup_heap _ e 0 _ hph]
    exact grownArr_getD_zero _ _ _ _ (by rw [hsz]; decide) hidx
  · intro j h1 hj
    rw [lookup_heap _ e j _ hph]
    exact grownArr_getD_mid _ _ _ _ _ (by rw [hsz]; omega) hj
  · rw [lookup_heap _ e index _ hph]
    exact grownArr_getD_self _ _ _ _
  · rw [hwid]
    exact wrap16_eq_self (by omega) (by omega)

/-- C4 witness: expanding the concrete direct state `S1a`
(direct value `some 10`) at index 3 keeps `some 10` at position 0, nulls
positions 1 and 2, stores the new handle at 3, and sets the width to 4. -/
theorem C4_expand_direct_witness :
    lookup (map_indexed_body S1a 0 3 (some 50)) 0 0 = some 10 ∧
    lookup (map_indexed_body S1a 0 3 (some 50)) 0 2 = none ∧
    lookup (map_indexed_body S1a 0 3 (some 50)) 0 3 = some 50 ∧
    (map_indexed_body S1a 0 3 (some 50)).sublist_size.getD 0 0 = (3 : Int) + 1 := by
  obtain ⟨h0, hmid, hself, _, hwid⟩ :=
    C4_expand_direct S1a_reachable 0 (by decide) 3 (some 50) (by decide)
      (by decide)
  exact ⟨h0, hmid 2 (by decide) (by decide), hself, hwid (by decide)⟩

/-- C5 exhibits the width-wrap code bug: from the fresh registry (width 0
at slot 0), the single valid call `map_indexed(0, 32767, some 1)` stores
`_sublist_size[0] = 32768`, which wraps the `short int` to -32768 — a
width decrease, refuting monotonicity; the claim is the intended
behaviour and the `short int` width counter the slip. -/
theorem C5_wrap_bug :
    Reachable 1 Wbug ∧
    (init_pointers 1).sublist_size.getD 0 0 = 0 ∧
    runOp 1 (some (init_pointers 1)) (Op.map_indexed 0 32767 (some 1)) =
      some (some Wbug) ∧
    Wbug.sublist_size.getD 0 0 = -32768 ∧
    Wbug.sublist_size.getD 0 0 < (init_pointers 1).sublist_size.getD 0 0 :=
  ⟨Wbug_reachable, by decide, Wbug_step, by rfl, by decide⟩

/-- C8 exhibits the width-wrap code bug: in the reachable wrapped state
`Wbug` (width -32768), the call `map_indexed(0, 5, some 6)` satisfies the
claim's precondition (`0 ≤ e < capacity`, `index ≥ 0`) and proceeds, but
its nulling loop starts at `i = _sublist_size[0] = -32768`, an
out-of-bounds write that the bounds-checked replay reports; the claim's
safety statement is the intended behaviour and the `short int` width
counter the slip. -/
theorem C8_wrap_bug :
    Reachable 1 Wbug ∧
    (0 : Nat) < 1 ∧
    ¬ (5 : Int) < 0 ∧
    Wbug.sublist_size.getD 0 0 = -32768 ∧
    cs_field_pointer_map_indexed 1 (some Wbug) 0 5 (some 6) =
      some (map_indexed_body Wbug 0 5 (some 6)) ∧
    map_indexed_body_checked Wbug 0 5 (some 6) = none := by
  refine ⟨Wbug_reachable, by decide, by decide, by rfl, ?_, by rfl⟩
  rw [map_indexed_eq_body 1 Wbug 0 5 (some 6) (by norm_num) (by decide)]
  rfl

/-- C9 counterexample: the reachable wrapped state `Wbug` has
`sublist_size[0] = -32768 ≤ 1` while slot 0's `p` is a heap array, not the
inline representation, refuting the claimed equivalence. -/
theorem C9_counterexample :
    Reachable 1 Wbug ∧
    Wbug.sublist_size.getD 0 0 ≤ 1 ∧
    ¬ (Wbug.field_pointer.getD 0 dSlot).p = Rep.inline :=
  ⟨Wbug_reachable, by decide, by decide⟩

/-- C9 (amended): in every reachable state, an inline slot (its `p` aims
at its own `f`) has width 0 or 1; a slot of width above 1 is
heap-expanded; and every heap-expanded slot's array has at least 2
elements and at least `width` elements. The converse (width ≤ 1 implies
inline) and exact equality of width and array length fail in states where
a growth wrapped the `short int` width counter. -/
theorem C9_representation {n : Nat} {r : Registry} (hr : Reachable n r)
    (e : Nat) (he : e < n) :
    ((r.field_pointer.getD e dSlot).p = Rep.inline →
      r.sublist_size.getD e 0 = 0 ∨ r.sublist_size.getD e 0 = 1) ∧
    (1 < r.sublist_size.getD e 0 →
      ∃ a, (r.field_pointer.getD e dSlot).p = Rep.heap a) ∧
    (∀ a, (r.field_pointer.getD e dSlot).p = Rep.heap a →
      2 ≤ a.length ∧ r.sublist_size.getD e 0 ≤ (a.length : Int)) := by
  have hinv := reachable_inv hr
  refine ⟨(hinv.2.2 e he).1, fun hlt => ?_, (hinv.2.2 e he).2⟩
  obtain ⟨a, hp, _, _⟩ := heap_of_one_lt hinv he hlt
  exact ⟨a, hp⟩

/-- C9 witness: in the concrete reachable state `S1` the expanded array
has at least 2 and at least `width` elements. -/
theorem C9_representation_witness :
    2 ≤ ([some 30, some 20] : List Handle).length ∧
    S1.sublist_size.getD 0 0 ≤ (([some 30, some 20] : List Handle).length : Int) :=
  (C9_representation S1_reachable 0 (by decide)).2.2 [some 30, some 20] (by decide)

/-- C10 exhibits the width-wrap code bug: the reachable state `S1b` has
slot 0 expanded (width 2) with inline `f = some 10`; the later call
`map_indexed(0, 65535, some 3)` wraps the stored width to 0, after which
`map(0, some 4)` takes the direct branch and rewrites the inline `f` of a
slot that had been expanded — the claim that `f` is frozen after
expansion is the intended behaviour and the `short int` width counter the
slip. -/
theorem C10_wrap_bug :
    Reachable 1 S1b ∧
    1 < S1b.sublist_size.getD 0 0 ∧
    (S1b.field_pointer.getD 0 dSlot).f = some 10 ∧
    runOps 1 (some S1b) [Op.map_indexed 0 65535 (some 3), Op.map 0 (some 4)] =
      some (some Vbug) ∧
    (Vbug.field_pointer.getD 0 dSlot).f = some 4 ∧
    ¬ (some 4 : Handle) = some 10 := by
  have h2 : runOp 1 (some W2bug) (Op.map 0 (some 4)) = some (some Vbug) := by
    simp only [runOp, cs_field_pointer_map]
    rw [map_indexed_eq_body 1 W2bug 0 0 (some 4) (by norm_num) (by decide)]
    rfl
  refine ⟨S1b_reachable, by decide, by decide, ?_, by rfl, by decide⟩
  simp only [runOps, W2bug_step, h2]

end CSFP
